import Mathlib

/-!
Verification of the `cargo-rudra` build orchestrator (`src/bin/cargo-rudra.rs`)
and of the report logger (`src/report.rs`) of the Rudra repository.

The Rust code is shallowly embedded: a process command line is a `List String`
(the list produced by `std::env::args()`), the process environment is passed
explicitly as `Option String` values, and the side-effecting parts (spawning
subprocesses, writing files) are modelled as pure functions that return the
commands, events, or file-system updates the code would perform.

Rust `str` methods used by the source (`starts_with`, `ends_with`, slicing,
`is_empty`, `split`, `to_lowercase`) are modelled as executable functions on
the character list `String.data`; flag names are ASCII, so byte indices and
character indices agree.
-/

/-- Models Rust `str::starts_with`. -/
def str_starts_with (s p : String) : Bool :=
  s.data.take p.data.length == p.data

/-- Models Rust `str::ends_with`. -/
def str_ends_with (s p : String) : Bool :=
  s.data.drop (s.data.length - p.data.length) == p.data && p.data.length ≤ s.data.length

/-- Models Rust slicing `s[n..]` (ASCII arguments, so bytes = characters). -/
def str_drop (s : String) (n : Nat) : String :=
  ⟨s.data.drop n⟩

/-- Models Rust `str::len` (ASCII arguments, so bytes = characters). -/
def str_len (s : String) : Nat :=
  s.data.length

/-- Models Rust `str::is_empty`. -/
def str_is_empty (s : String) : Bool :=
  s.data.isEmpty

/-- Models Rust `str::split` with a single-character separator. -/
def split_on_char (sep : Char) : List Char → List (List Char)
  | [] => [[]]
  | c :: rest =>
    let r := split_on_char sep rest
    if c == sep then
      [] :: r
    else
      match r with
      | [] => [[c]]
      | h :: t => (c :: h) :: t

/-- Models Rust `char`/`str::to_lowercase` on the ASCII range (the package
names compared by the allow-list check are ASCII crate names). -/
def char_to_lowercase (c : Char) : Char :=
  if 'A' ≤ c ∧ c ≤ 'Z' then Char.ofNat (c.toNat + 32) else c

/-- A command line, the list of `std::env::args()` of one process invocation. -/
abbrev Args := List String

/-- Embeds `has_arg_flag` of cargo-rudra.rs: whether a `--flag` is present,
searching only up to the first `"--"` argument. -/
def has_arg_flag (name : String) (args : Args) : Bool :=
  (args.takeWhile (fun val => val != "--")).any (fun val => val == name)

/-- The search loop of `get_arg_flag_value`: finds the first argument that
starts with `name`; if the argument is exactly `name` the next argument is the
value, if it is `name=value` the part after `=` is the value, otherwise the
scan continues. -/
def get_arg_flag_value_loop (name : String) : Args → Option String
  | [] => none
  | arg :: rest =>
    if str_starts_with arg name then
      let suffix := str_drop arg (str_len name)
      if str_is_empty suffix then
        rest.head?
      else if str_starts_with suffix "=" then
        some (str_drop suffix 1)
      else
        get_arg_flag_value_loop name rest
    else
      get_arg_flag_value_loop name rest

/-- Embeds `get_arg_flag_value` of cargo-rudra.rs. When `stop` is true the
scan stops at the first `"--"` argument; when `stop` is false the whole
command line is scanned. -/
def get_arg_flag_value (name : String) (stop : Bool) (args : Args) : Option String :=
  get_arg_flag_value_loop name (args.takeWhile (fun val => !stop || val != "--"))

/-- The search loop of `any_arg_flag`: like `get_arg_flag_value_loop` but
applies `check` to every value of the repeated flag `name`. An occurrence that
starts with `name` but is neither exactly `name` nor of the `name=value` shape
aborts the whole search with `false`, as in the source. -/
def any_arg_flag_loop (name : String) (check : String → Bool) : Args → Bool
  | [] => false
  | arg :: rest =>
    if str_starts_with arg name then
      let suffix := str_drop arg (str_len name)
      if str_is_empty suffix then
        match rest with
        | [] => false
        | value :: rest2 => check value || any_arg_flag_loop name check rest2
      else if str_starts_with suffix "=" then
        check (str_drop suffix 1) || any_arg_flag_loop name check rest
      else
        false
    else
      any_arg_flag_loop name check rest

/-- Embeds `any_arg_flag` of cargo-rudra.rs (always stops at `"--"`). -/
def any_arg_flag (name : String) (check : String → Bool) (args : Args) : Bool :=
  any_arg_flag_loop name check (args.takeWhile (fun val => val != "--"))

/-- Embeds `get_first_arg_with_rs_suffix`: the first argument (before `"--"`)
that ends with `.rs`. -/
def get_first_arg_with_rs_suffix (args : Args) : Option String :=
  (args.takeWhile (fun val => val != "--")).find? (fun arg => str_ends_with arg ".rs")

/-- Embeds `TargetKind` of cargo-rudra.rs, with its `repr(u8)` discriminants
`Library = 0`, `Bin = 1`, `Unknown = 2`. -/
inductive TargetKind
  | Library
  | Bin
  | Unknown
  deriving DecidableEq, Repr

/-- The `repr(u8)` value used by `TargetKind as u8` in the sort key. -/
def TargetKind.toU8 : TargetKind → Nat
  | .Library => 0
  | .Bin => 1
  | .Unknown => 2

/-- Embeds `TargetKind::is_lib_str`. -/
def TargetKind.is_lib_str (s : String) : Bool :=
  s == "lib" || s == "rlib" || s == "staticlib"

/-- Embeds `Path::is_relative` for the Unix path model used by the build:
a path is absolute exactly when it starts with `/`. -/
def path_is_relative (s : String) : Bool :=
  !str_starts_with s "/"

/-- Embeds `inside_cargo_rustc::contains_target_flag`: whether the invocation
carries an explicit `--target` selector (scanned with `stop = false`). -/
def contains_target_flag (args : Args) : Bool :=
  (get_arg_flag_value "--target" false args).isSome

/-- Embeds `inside_cargo_rustc::is_target_crate`: whether the first `.rs`
argument exists and is a relative path. -/
def is_target_crate (args : Args) : Bool :=
  match get_first_arg_with_rs_suffix args with
  | none => false
  | some entry_path_arg => path_is_relative entry_path_arg

/-- Embeds `inside_cargo_rustc::is_crate_type_lib`. -/
def is_crate_type_lib (args : Args) : Bool :=
  any_arg_flag "--crate-type" TargetKind.is_lib_str args

/-- The `is_direct_target` flag computed by `inside_cargo_rustc`. -/
def is_direct_target (args : Args) : Bool :=
  contains_target_flag args && is_target_crate args

/-- The `is_additional_target` flag of `inside_cargo_rustc`: the crate's
package name (env `CARGO_PKG_NAME`) appears, case-insensitively, in the
comma-separated allow-list (env `RUDRA_ALSO_ANALYZE`). -/
def is_additional_target (cargo_pkg_name rudra_also_analyze : Option String) : Bool :=
  match cargo_pkg_name, rudra_also_analyze with
  | some pkg, some crates =>
    (split_on_char ',' crates.data).any
      (fun x => x.map char_to_lowercase == pkg.data.map char_to_lowercase)
  | _, _ => false

/-- Which downstream programs one `inside_cargo_rustc` invocation runs. -/
structure Dispatch where
  run_rudra : Bool
  run_rustc : Bool
  deriving DecidableEq, Repr

/-- Embeds the dispatch decision of `inside_cargo_rustc`: the analyzer
(`rudra`) runs when the unit is the direct target or an additional target;
the real compiler (`rustc`, possibly behind `sccache`) runs when the unit is
not the direct target or its crate type is a library. -/
def inside_cargo_rustc (args : Args) (cargo_pkg_name rudra_also_analyze : Option String) :
    Dispatch :=
  let is_direct := is_direct_target args
  let is_additional := is_additional_target cargo_pkg_name rudra_also_analyze
  { run_rudra := is_direct || is_additional
    run_rustc := !is_direct || is_crate_type_lib args }

/-- A cargo target as seen by `in_cargo_rudra`: its name and its `kind`
strings from the package metadata. -/
structure CargoTarget where
  name : String
  kind : List String
  deriving DecidableEq, Repr

/-- Embeds `impl From<&cargo_metadata::Target> for TargetKind`. -/
def target_kind (target : CargoTarget) : TargetKind :=
  if target.kind.any TargetKind.is_lib_str then
    TargetKind.Library
  else if target.kind.head? == some "bin" then
    TargetKind.Bin
  else
    TargetKind.Unknown

/-- One step of the stable sort used for
`targets.sort_by_key(|target| TargetKind::from(target) as u8)`:
insert a target into an already sorted list, before the first element whose
key is not smaller (so equal-key elements keep their original order, as
Rust's stable `sort_by_key` does). -/
def insert_by_kind (t : CargoTarget) : List CargoTarget → List CargoTarget
  | [] => [t]
  | u :: us =>
    if (target_kind u).toU8 < (target_kind t).toU8 then
      u :: insert_by_kind t us
    else
      t :: u :: us

/-- Embeds `targets.sort_by_key(|target| TargetKind::from(target) as u8)`
(a stable sort on the `repr(u8)` value of the target kind). -/
def sort_targets : List CargoTarget → List CargoTarget
  | [] => []
  | t :: ts => insert_by_kind t (sort_targets ts)

/-- Key order used by the target sort. -/
def kind_le (u v : CargoTarget) : Prop :=
  (target_kind u).toU8 ≤ (target_kind v).toU8

/-- The sequence of delegated invocations planned for one package by the
target loop of `in_cargo_rudra`: targets in sorted order, `Unknown` targets
skipped with a warning, a `Library` target selected with `--lib`, a `Bin`
target with `--bin <name>`. -/
def planned_target_list (targets : List CargoTarget) : List (TargetKind × String) :=
  (sort_targets targets).filterMap (fun t =>
    match target_kind t with
    | TargetKind.Unknown => none
    | k => some (k, t.name))

/-- Lowercase hexadecimal digit, as emitted by serde_json's escape table. -/
def hex_digit (n : Nat) : Char :=
  if n < 10 then Char.ofNat (48 + n) else Char.ofNat (87 + n)

/-- Models serde_json's escaping of one character inside a JSON string:
the short escapes `\b \t \n \f \r \" \\`, a `\u00XX` escape for the other
control characters, and everything else verbatim. -/
def escape_char (c : Char) : List Char :=
  if c = '\x08' then ['\\', 'b']
  else if c = '\t' then ['\\', 't']
  else if c = '\n' then ['\\', 'n']
  else if c = '\x0C' then ['\\', 'f']
  else if c = '\r' then ['\\', 'r']
  else if c = '"' then ['\\', '"']
  else if c = '\\' then ['\\', '\\']
  else if c.toNat < 32 then
    ['\\', 'u', '0', '0', hex_digit (c.toNat / 16), hex_digit (c.toNat % 16)]
  else [c]

/-- serde_json's escaping of a whole string body. -/
def escape_string_body : List Char → List Char
  | [] => []
  | c :: cs => escape_char c ++ escape_string_body cs

/-- A serde_json string literal: quoted escaped body. -/
def encode_json_string (s : List Char) : List Char :=
  '"' :: (escape_string_body s ++ ['"'])

/-- The continuation of a serde_json array literal after its first element. -/
def encode_items_rest : List (List Char) → List Char
  | [] => [']']
  | s :: rest => ',' :: (encode_json_string s ++ encode_items_rest rest)

/-- Models `serde_json::to_string` on a `Vec<String>`: the compact JSON
array-of-strings literal. This is the ArgumentChannel encoder used for the
`RUDRA_ARGS` environment variable. -/
def serde_json_to_string : List (List Char) → List Char
  | [] => ['[', ']']
  | s :: rest => '[' :: (encode_json_string s ++ encode_items_rest rest)

/-- Value of one hexadecimal digit (serde_json accepts both cases). -/
def hex_val (c : Char) : Option Nat :=
  if 48 ≤ c.toNat ∧ c.toNat ≤ 57 then some (c.toNat - 48)
  else if 97 ≤ c.toNat ∧ c.toNat ≤ 102 then some (c.toNat - 87)
  else if 65 ≤ c.toNat ∧ c.toNat ≤ 70 then some (c.toNat - 55)
  else none

/-- The character denoted by a single-character JSON escape. -/
def unescape_char (e : Char) : Option Char :=
  if e = '"' then some '"'
  else if e = '\\' then some '\\'
  else if e = '/' then some '/'
  else if e = 'b' then some '\x08'
  else if e = 'f' then some '\x0C'
  else if e = 'n' then some '\n'
  else if e = 'r' then some '\r'
  else if e = 't' then some '\t'
  else none

/-- Models serde_json's JSON string-body parser (after the opening quote):
returns the decoded string and the input remaining after the closing quote. -/
def parse_string_body : List Char → Option (List Char × List Char)
  | [] => none
  | c :: rest =>
    if c = '"' then some ([], rest)
    else if c = '\\' then
      match rest with
      | [] => none
      | e :: rest2 =>
        if e = 'u' then
          match rest2 with
          | h1 :: h2 :: h3 :: h4 :: rest3 =>
            match hex_val h1, hex_val h2, hex_val h3, hex_val h4 with
            | some a, some b, some g, some d =>
              let n := ((a * 16 + b) * 16 + g) * 16 + d
              if n.isValidChar then
                match parse_string_body rest3 with
                | some (s, r) => some (Char.ofNat n :: s, r)
                | none => none
              else none
            | _, _, _, _ => none
          | _ => none
        else
          match unescape_char e with
          | some c2 =>
            match parse_string_body rest2 with
            | some (s, r) => some (c2 :: s, r)
            | none => none
          | none => none
    else
      match parse_string_body rest with
      | some (s, r) => some (c :: s, r)
      | none => none

/-- Parser for the items of a nonempty JSON string array: a string literal,
then either `]` (end) or `,` and more items. `fuel` bounds the number of
items; the callers pass the input length. -/
def parse_items : Nat → List Char → Option (List (List Char) × List Char)
  | 0, _ => none
  | fuel + 1, l =>
    match l with
    | [] => none
    | c :: rest =>
      if c = '"' then
        match parse_string_body rest with
        | none => none
        | some (s, r) =>
          match r with
          | [] => none
          | d :: r2 =>
            if d = ']' then some ([s], r2)
            else if d = ',' then
              match parse_items fuel r2 with
              | none => none
              | some (ss, r3) => some (s :: ss, r3)
            else none
      else none

/-- Models `serde_json::from_str` on a `Vec<String>` payload: parses a JSON
array of strings and requires the whole input to be consumed. This is the
ArgumentChannel decoder applied to the `RUDRA_ARGS` environment variable. -/
def serde_json_from_str (l : List Char) : Option (List (List Char)) :=
  match l with
  | [] => none
  | c :: rest =>
    if c = '[' then
      match rest with
      | [] => none
      | d :: r2 =>
        if d = ']' then
          if r2 = [] then some [] else none
        else
          match parse_items rest.length rest with
          | some (ss, r) => if r = [] then some ss else none
          | none => none
    else none

/-- Models the value stored into the `RUDRA_ARGS` environment variable by
`in_cargo_rudra` (`serde_json::to_string(&args_vec)`). -/
def serialize_rudra_args (args_vec : List String) : String :=
  ⟨serde_json_to_string (args_vec.map String.data)⟩

/-- Models the read side in `inside_cargo_rustc`
(`serde_json::from_str::<Vec<String>>(&magic)`). -/
def deserialize_rudra_args (magic : String) : Option (List String) :=
  (serde_json_from_str magic.data).map (fun l => l.map String.mk)

/-- Embeds `impl Display for TargetKind`. -/
def TargetKind.display : TargetKind → String
  | .Library => "lib"
  | .Bin => "bin"
  | .Unknown => "unknown"

/-- One delegated build invocation planned by the target loop of
`in_cargo_rudra`: the program, its argument list, and the environment
variables the loop sets on it. -/
structure PlannedCmd where
  program : String
  args : List String
  env_report_path : Option String
  env_rudra_args : String
  env_rustc_wrapper : String
  env_verbose_set : Bool
  deriving Repr

/-- Embeds one iteration of the target loop of `in_cargo_rudra` (the
InvocationPlanner): given the orchestrator's own command line `argv`, the
compile-time `cfg!(debug_assertions)` flag, the `RUDRA_USE_XARGO_INSTEAD_OF_CARGO`
override, the host triple from `version_info()`, the package and target being
planned, the base `RUDRA_REPORT_PATH`, and the orchestrator's executable path.
Returns `none` for an `Unknown` target kind (warn and skip). Selecting
`xargo-check` discards the previously added `check -p` arguments because the
source rebuilds the `Command` from scratch in that case. -/
def plan_target (argv : Args) (debug_assertions use_xargo : Bool) (host : String)
    (package_name package_version : String) (target : CargoTarget)
    (base_report_path : Option String) (current_exe : String) : Option PlannedCmd :=
  let verbose := has_arg_flag "-v" argv
  let kind := target_kind target
  match kind with
  | TargetKind.Unknown => none
  | kind =>
    let base_args : List String :=
      if use_xargo then [] else ["check", "-p", package_name ++ "@" ++ package_version]
    let kind_args : List String :=
      match kind with
      | TargetKind.Bin => ["--bin", target.name]
      | _ => ["--lib"]
    let quiet_args : List String := if !debug_assertions && !verbose then ["-q"] else []
    let user_args := argv.drop 2
    let forwarded := user_args.takeWhile (fun arg => arg != "--")
    let rudra_args := (user_args.dropWhile (fun arg => arg != "--")).drop 1
    let target_args : List String :=
      if (get_arg_flag_value "--target" false argv).isNone then ["--target", host] else []
    some
      { program := if use_xargo then "xargo-check" else "cargo"
        args := base_args ++ kind_args ++ quiet_args ++ forwarded ++ target_args
        env_report_path := base_report_path.map (fun report =>
          report ++ "-" ++ kind.display ++ "-" ++ target.name)
        env_rudra_args := serialize_rudra_args rudra_args
        env_rustc_wrapper := current_exe
        env_verbose_set := verbose }

/-- The fixed wall-clock budget of one delegated invocation
(`Duration::from_secs(60 * 60)` in `in_cargo_rudra`). -/
def bound_duration_secs : Nat := 60 * 60

/-- Result of `child.wait_timeout(bound_duration)` for one delegated
invocation: the child completed (with a success flag) within the budget, or
the budget expired. -/
inductive SpawnOutcome
  | completed (success : Bool)
  | timed_out
  deriving DecidableEq, Repr

/-- Observable process actions of the supervisor loop. -/
inductive SupervisorEvent
  | spawn (index : Nat)
  | kill (index : Nat)
  | reap (index : Nat)
  deriving DecidableEq, Repr

/-- Embeds the supervision part of the target loop of `in_cargo_rudra`
(the ProcessSupervisor), driven by an oracle list giving the outcome of each
delegated invocation in planned order. For each target: spawn; on successful
completion continue with the next target; on non-zero completion
`show_error` exits the orchestrator with status 1; on timeout the child is
killed, reaped (`child.wait()`), and `show_error` exits with status 1.
Returns the emitted events and `some code` when the run aborted with that
exit status (`none` when every invocation succeeded). -/
def run_targets_loop : Nat → List SpawnOutcome → List SupervisorEvent × Option Nat
  | _, [] => ([], none)
  | index, outcome :: rest =>
    match outcome with
    | SpawnOutcome.completed true =>
      let next := run_targets_loop (index + 1) rest
      (SupervisorEvent.spawn index :: next.1, next.2)
    | SpawnOutcome.completed false =>
      ([SupervisorEvent.spawn index], some 1)
    | SpawnOutcome.timed_out =>
      ([SupervisorEvent.spawn index, SupervisorEvent.kill index, SupervisorEvent.reap index],
        some 1)

/-- The whole supervised run over the planned targets. -/
def run_targets (outcomes : List SpawnOutcome) : List SupervisorEvent × Option Nat :=
  run_targets_loop 0 outcomes

/-- The events the loop emits for the failing invocation before exiting. -/
def failure_events (index : Nat) : SpawnOutcome → List SupervisorEvent
  | SpawnOutcome.completed _ => [SupervisorEvent.spawn index]
  | SpawnOutcome.timed_out =>
    [SupervisorEvent.spawn index, SupervisorEvent.kill index, SupervisorEvent.reap index]

/-- Embeds `ReportLevel` of report.rs. -/
inductive ReportLevel
  | Error
  | Warning
  | Info
  deriving DecidableEq, Repr

/-- Embeds the `Report` record of report.rs (the five serialized fields). -/
structure Report where
  level : ReportLevel
  analyzer : String
  description : String
  location : String
  source : String
  deriving Repr

/-- Embeds `FileLogger` of report.rs: the buffered report list (a `Mutex`
protected `Vec` accessed single-threadedly at flush time) and the report
file path. -/
structure FileLogger where
  reports : List Report
  file_path : String

/-- Embeds `FileLogger::log`: push the report into the buffer. -/
def FileLogger.log (logger : FileLogger) (report : Report) : FileLogger :=
  { logger with reports := logger.reports ++ [report] }

/-- A file system, mapping a path to the contents of the file there. -/
def FileSystem : Type := String → Option String

/-- Renders `ReportLevel` as serialized (its `Debug`/`Display` name). -/
def ReportLevel.display : ReportLevel → String
  | .Error => "Error"
  | .Warning => "Warning"
  | .Info => "Info"

/-- Models the serialized report document written by `FileLogger::flush`:
`toml::to_string_pretty` of the `Reports` wrapper followed by the two escape
replacements, folded into one rendering of the external toml serializer. -/
def render_report (report : Report) : String :=
  "[[reports]]\nlevel = \"" ++ report.level.display ++
    "\"\nanalyzer = \"" ++ report.analyzer ++
    "\"\ndescription = \"" ++ report.description ++
    "\"\nlocation = \"" ++ report.location ++
    "\"\nsource = \"" ++ report.source ++ "\"\n"

/-- The whole serialized document. -/
def render_reports : List Report → String
  | [] => ""
  | report :: rest => render_report report ++ render_reports rest

/-- Embeds `FileLogger::flush`: when the buffered report list is nonempty,
`fs::write` replaces the contents of `file_path` with the serialized
document; when it is empty, nothing is written at all. -/
def FileLogger.flush (logger : FileLogger) (fs : FileSystem) : FileSystem :=
  if !logger.reports.isEmpty then
    fun path =>
      if path = logger.file_path then some (render_reports logger.reports) else fs path
  else
    fs

/-- Package identifiers (`cargo_metadata::PackageId` rendered as a string). -/
abbrev PackageId := String

/-- Embeds `cargo_metadata::DependencyKind` (the kinds relevant here). -/
inductive DependencyKind
  | Normal
  | Development
  | Build
  deriving DecidableEq, Repr

/-- One dependency of a resolve node (`NodeDep`): the target package and the
kinds under which it is depended on. -/
structure NodeDep where
  pkg : PackageId
  dep_kinds : List DependencyKind

/-- One node of `metadata.resolve.nodes`. -/
structure ResolveNode where
  id : PackageId
  deps : List NodeDep

/-- The metadata consumed by `cargo_workspace`: the resolve nodes and the
workspace member ids. -/
structure Metadata where
  nodes : List ResolveNode
  workspace_members : List PackageId

/-- The dependency map built by `cargo_workspace`
(`HashMap<PackageId, HashSet<PackageId>>`), modelled as an association list;
cargo metadata node ids are unique. -/
abbrev DepGraph := List (PackageId × List PackageId)

/-- The first loop of `cargo_workspace`: for every resolve node, keep the
dependencies that have a `Normal` kind. -/
def build_dependencies (nodes : List ResolveNode) : DepGraph :=
  nodes.map (fun package =>
    (package.id,
      (package.deps.filter (fun dep =>
        dep.dep_kinds.any (fun kind => kind == DependencyKind.Normal))).map
        (fun dep => dep.pkg)))

/-- The key set of the dependency map. -/
def graph_keys (g : DepGraph) : List PackageId :=
  g.map Prod.fst

/-- A dependency edge of the map: `p` depends on `d`. -/
def edge (g : DepGraph) (p d : PackageId) : Prop :=
  ∃ ds, (p, ds) ∈ g ∧ d ∈ ds

/-- Removal of a scheduled package, as in the loop body of `cargo_workspace`:
`dependencies.remove(&package_id)` followed by removing `package_id` from
every remaining dependency set. -/
def remove_package (package_id : PackageId) (dependencies : DepGraph) : DepGraph :=
  (dependencies.filter (fun e => e.1 != package_id)).map
    (fun e => (e.1, e.2.filter (fun dep => dep != package_id)))

/-- Embeds the `for _ in 0..n` selection loop of `cargo_workspace`: each
round finds an entry whose dependency set is empty — panicking with the
current remaining map (`Cyclic dependencies in workspace. ...`) when there is
none — then pushes its id and removes it. The `HashMap` iteration order is
arbitrary; this embedding picks the first empty entry. -/
def topo_sort_loop : Nat → DepGraph → Except DepGraph (List PackageId)
  | 0, _ => Except.ok []
  | n + 1, dependencies =>
    match dependencies.find? (fun e => e.2.isEmpty) with
    | none => Except.error dependencies
    | some e =>
      match topo_sort_loop n (remove_package e.1 dependencies) with
      | Except.error remaining => Except.error remaining
      | Except.ok res => Except.ok (e.1 :: res)

/-- Embeds `cargo_workspace` (returning package ids rather than the looked-up
`Package` values): topologically sort all packages of the resolve graph,
then keep only workspace members, in order. -/
def cargo_workspace (metadata : Metadata) : Except DepGraph (List PackageId) :=
  let dependencies := build_dependencies metadata.nodes
  match topo_sort_loop dependencies.length dependencies with
  | Except.error remaining => Except.error remaining
  | Except.ok res =>
    Except.ok (res.filter (fun pkg => metadata.workspace_members.contains pkg))

/-- A cycle in the dependency map: a chain of edges from `x` through `l`
back to `x`. -/
def has_cycle (g : DepGraph) : Prop :=
  ∃ (x : PackageId) (l : List PackageId), List.Chain (edge g) x (l ++ [x])

/-- Successor choice used to extract a cycle from a stuck scheduler state:
some dependency recorded for `p` in the map (or `p` itself when `p` has no
entry or an empty entry). -/
def next_dep (g : DepGraph) (p : PackageId) : PackageId :=
  match g.find? (fun e => e.1 == p) with
  | some e => e.2.headD p
  | none => p

/-- C1: a unit is classified as a direct target iff the invocation carries an
explicit `--target` selector and the first `.rs` argument is a relative path;
a unit that lacks the selector or whose entry path is absolute, and whose
package name is not in the allow-list, is routed only to the real compiler
and the analyzer is not invoked. -/
theorem c1_direct_target_classification (args : Args) (pkg also : Option String) :
    (is_direct_target args = true ↔
      contains_target_flag args = true ∧
        ∃ entry, get_first_arg_with_rs_suffix args = some entry ∧
          path_is_relative entry = true) ∧
    ((contains_target_flag args = false ∨
        (∃ entry, get_first_arg_with_rs_suffix args = some entry ∧
          path_is_relative entry = false)) →
      is_additional_target pkg also = false →
      inside_cargo_rustc args pkg also = { run_rudra := false, run_rustc := true }) := by
  have hclass : is_direct_target args = true ↔
      contains_target_flag args = true ∧
        ∃ entry, get_first_arg_with_rs_suffix args = some entry ∧
          path_is_relative entry = true := by
    unfold is_direct_target is_target_crate
    cases hfind : get_first_arg_with_rs_suffix args with
    | none => simp
    | some entry => simp [Bool.and_eq_true]
  refine ⟨hclass, fun hnot hadd => ?_⟩
  have hdirect : is_direct_target args = false := by
    cases hdt : is_direct_target args with
    | false => rfl
    | true =>
      exfalso
      obtain ⟨htf, entry, hfind, hrel⟩ := hclass.mp hdt
      rcases hnot with hnone | ⟨entry2, hfind2, habs⟩
      · rw [htf] at hnone; exact absurd hnone (by simp)
      · rw [hfind] at hfind2
        cases hfind2
        rw [hrel] at habs
        exact absurd habs (by simp)
  unfold inside_cargo_rustc
  rw [hdirect, hadd]
  rfl

/-- Witness for C1 at a concrete invocation: an absolute entry path with a
`--target` selector and a non-allow-listed package is compiled only. -/
theorem c1_direct_target_classification_witness :
    inside_cargo_rustc
      ["cargo-rudra", "rustc", "--crate-name", "foo", "--target=x86_64",
        "/registry/foo-1.0.0/src/lib.rs"]
      (some "foo") none = { run_rudra := false, run_rustc := true } :=
  (c1_direct_target_classification _ _ _).2
    (Or.inr ⟨"/registry/foo-1.0.0/src/lib.rs", by decide, by decide⟩)
    (by decide)

/-- C2: a direct target whose declared `--crate-type` is a library type runs
both the analyzer and the real compiler; a direct target of any non-library
crate type runs only the analyzer. -/
theorem c2_dual_build (args : Args) (pkg also : Option String)
    (hdirect : is_direct_target args = true) :
    (is_crate_type_lib args = true →
      inside_cargo_rustc args pkg also = { run_rudra := true, run_rustc := true }) ∧
    (is_crate_type_lib args = false →
      inside_cargo_rustc args pkg also = { run_rudra := true, run_rustc := false }) := by
  constructor <;> intro hlib <;>
    simp [inside_cargo_rustc, hdirect, hlib]

/-- Witness for C2 at concrete invocations: a direct-target library unit runs
both programs, a direct-target binary unit runs only the analyzer. -/
theorem c2_dual_build_witness :
    inside_cargo_rustc
      ["cargo-rudra", "rustc", "--crate-name", "foo", "--crate-type", "lib",
        "src/lib.rs", "--target", "x86_64"] none none =
      { run_rudra := true, run_rustc := true } ∧
    inside_cargo_rustc
      ["cargo-rudra", "rustc", "--crate-name", "foo", "--crate-type", "bin",
        "src/main.rs", "--target", "x86_64"] none none =
      { run_rudra := true, run_rustc := false } :=
  ⟨(c2_dual_build _ none none (by decide)).1 (by decide),
    (c2_dual_build _ none none (by decide)).2 (by decide)⟩

/-- C9: an invocation with no argument ending in `.rs` is never classified as
a direct target, so unless its package name is allow-listed it is routed only
to the real compiler. -/
theorem c9_no_rs_arg_not_direct (args : Args) (pkg also : Option String)
    (hnors : get_first_arg_with_rs_suffix args = none) :
    is_direct_target args = false ∧
      (is_additional_target pkg also = false →
        inside_cargo_rustc args pkg also = { run_rudra := false, run_rustc := true }) := by
  have hdt : is_direct_target args = false := by
    unfold is_direct_target is_target_crate
    rw [hnors]
    simp
  refine ⟨hdt, fun hadd => ?_⟩
  unfold inside_cargo_rustc
  rw [hdt, hadd]
  rfl

/-- Witness for C9 at a concrete invocation (`rustc --version`-style probe
with no source file). -/
theorem c9_no_rs_arg_not_direct_witness :
    is_direct_target ["cargo-rudra", "rustc", "--target", "x86_64", "--version"] = false ∧
      inside_cargo_rustc ["cargo-rudra", "rustc", "--target", "x86_64", "--version"]
        (some "foo") (some "bar,baz") = { run_rudra := false, run_rustc := true } :=
  ⟨(c9_no_rs_arg_not_direct _ (some "foo") (some "bar,baz") (by decide)).1,
    (c9_no_rs_arg_not_direct _ (some "foo") (some "bar,baz") (by decide)).2 (by decide)⟩

theorem mem_insert_by_kind {t x : CargoTarget} {l : List CargoTarget}
    (hx : x ∈ insert_by_kind t l) : x = t ∨ x ∈ l := by
  induction l with
  | nil => simpa [insert_by_kind] using hx
  | cons u us ih =>
    unfold insert_by_kind at hx
    split at hx
    · rcases List.mem_cons.mp hx with h | h
      · exact Or.inr (h ▸ List.mem_cons_self u us)
      · rcases ih h with h2 | h2
        · exact Or.inl h2
        · exact Or.inr (List.mem_cons_of_mem u h2)
    · rcases List.mem_cons.mp hx with h | h
      · exact Or.inl h
      · exact Or.inr h

theorem pairwise_insert_by_kind {t : CargoTarget} {l : List CargoTarget}
    (h : l.Pairwise kind_le) : (insert_by_kind t l).Pairwise kind_le := by
  induction l with
  | nil => simp [insert_by_kind, List.Pairwise]
  | cons u us ih =>
    rcases List.pairwise_cons.mp h with ⟨hu, hus⟩
    unfold insert_by_kind
    split
    · rename_i hlt
      refine List.pairwise_cons.mpr ⟨?_, ih hus⟩
      intro x hx
      rcases mem_insert_by_kind hx with rfl | hmem
      · exact Nat.le_of_lt hlt
      · exact hu x hmem
    · rename_i hnlt
      refine List.pairwise_cons.mpr ⟨?_, h⟩
      intro x hx
      rcases List.mem_cons.mp hx with rfl | hmem
      · exact Nat.le_of_not_lt hnlt
      · exact Nat.le_trans (Nat.le_of_not_lt hnlt) (hu x hmem)

theorem pairwise_sort_targets (ts : List CargoTarget) :
    (sort_targets ts).Pairwise kind_le := by
  induction ts with
  | nil => simp [sort_targets]
  | cons t ts ih => exact pairwise_insert_by_kind ih

theorem pairwise_filterMap_of_pairwise {α β : Type} (R : α → α → Prop)
    (S : β → β → Prop) (f : α → Option β)
    (hf : ∀ a b x y, R a b → f a = some x → f b = some y → S x y) :
    ∀ l : List α, l.Pairwise R → (l.filterMap f).Pairwise S := by
  intro l hl
  induction l with
  | nil => simp
  | cons a l ih =>
    rcases List.pairwise_cons.mp hl with ⟨ha, hl2⟩
    rw [List.filterMap_cons]
    cases hfa : f a with
    | none => exact ih hl2
    | some x =>
      refine List.pairwise_cons.mpr ⟨?_, ih hl2⟩
      intro y hy
      rcases List.mem_filterMap.mp hy with ⟨b, hb, hfb⟩
      exact hf a b x y (ha b hb) hfa hfb

theorem pairwise_planned_target_list (targets : List CargoTarget) :
    (planned_target_list targets).Pairwise
      (fun a b => a.1.toU8 ≤ b.1.toU8) := by
  refine pairwise_filterMap_of_pairwise kind_le _ _ ?_ _ (pairwise_sort_targets targets)
  intro a b x y hab hfa hfb
  have hxa : x.1.toU8 = (target_kind a).toU8 := by
    revert hfa
    cases target_kind a <;> intro hfa
    case Library => injection hfa with h; subst h; rfl
    case Bin => injection hfa with h; subst h; rfl
    case Unknown => exact Option.noConfusion hfa
  have hyb : y.1.toU8 = (target_kind b).toU8 := by
    revert hfb
    cases target_kind b <;> intro hfb
    case Library => injection hfb with h; subst h; rfl
    case Bin => injection hfb with h; subst h; rfl
    case Unknown => exact Option.noConfusion hfb
  rw [hxa, hyb]
  exact hab

/-- C6: in the planned invocation sequence of a package, every library-target
invocation precedes every binary-target invocation (targets are processed in
the order Library, then Bin, then Unknown, and Unknown targets are skipped). -/
theorem c6_library_before_binaries (targets : List CargoTarget)
    (i j : Fin (planned_target_list targets).length)
    (hlib : ((planned_target_list targets).get i).1 = TargetKind.Library)
    (hbin : ((planned_target_list targets).get j).1 = TargetKind.Bin) :
    (i : Nat) < (j : Nat) := by
  have hpw := pairwise_planned_target_list targets
  rcases Nat.lt_trichotomy (i : Nat) (j : Nat) with h | h | h
  · exact h
  · exfalso
    have : i = j := Fin.ext h
    rw [this, hbin] at hlib
    exact absurd hlib (by simp)
  · exfalso
    have hij : j < i := h
    have := (List.pairwise_iff_get.mp hpw) j i hij
    rw [hlib, hbin] at this
    simp [TargetKind.toU8] at this

/-- Witness for C6: a package declaring a binary target before its library
target still gets the library invocation planned first. -/
theorem c6_library_before_binaries_witness :
    (planned_target_list
        [{ name := "mybin", kind := ["bin"] }, { name := "mylib", kind := ["lib"] }]).length = 2 ∧
      (0 : Nat) < (1 : Nat) :=
  ⟨by decide,
    c6_library_before_binaries
      [{ name := "mybin", kind := ["bin"] }, { name := "mylib", kind := ["lib"] }]
      ⟨0, by decide⟩ ⟨1, by decide⟩ (by decide) (by decide)⟩

theorem hex_val_hex_digit : ∀ n, n < 16 → hex_val (hex_digit n) = some n := by decide

theorem parse_string_body_escape_char (c : Char) (E s r : List Char)
    (ih : parse_string_body E = some (s, r)) :
    parse_string_body (escape_char c ++ E) = some (c :: s, r) := by
  unfold escape_char
  split_ifs with h1 h2 h3 h4 h5 h6 h7 h8
  · subst h1; unfold parse_string_body; simp [unescape_char, ih]
  · subst h2; unfold parse_string_body; simp [unescape_char, ih]
  · subst h3; unfold parse_string_body; simp [unescape_char, ih]
  · subst h4; unfold parse_string_body; simp [unescape_char, ih]
  · subst h5; unfold parse_string_body; simp [unescape_char, ih]
  · subst h6; unfold parse_string_body; simp [unescape_char, ih]
  · subst h7; unfold parse_string_body; simp [unescape_char, ih]
  · have hdiv : c.toNat / 16 < 16 := by omega
    have hmod : c.toNat % 16 < 16 := Nat.mod_lt _ (by omega)
    have h0 : hex_val '0' = some 0 := by decide
    have hval : (((0 * 16 + 0) * 16 + c.toNat / 16) * 16 + c.toNat % 16) = c.toNat := by omega
    have hval2 : c.toNat / 16 * 16 + c.toNat % 16 = c.toNat := by omega
    have hvalid : Nat.isValidChar c.toNat := Or.inl (by omega)
    simp only [List.cons_append, List.nil_append]
    unfold parse_string_body
    simp [h0, hex_val_hex_digit _ hdiv, hex_val_hex_digit _ hmod, hval, hval2, hvalid, ih,
      Char.ofNat_toNat]
  · simp only [List.cons_append, List.nil_append]
    unfold parse_string_body
    rw [if_neg h6, if_neg h7, ih]

theorem parse_string_body_encode (s : List Char) :
    ∀ r : List Char, parse_string_body (escape_string_body s ++ ('"' :: r)) = some (s, r) := by
  induction s with
  | nil =>
    intro r
    rw [escape_string_body]
    unfold parse_string_body
    simp
  | cons c cs ih =>
    intro r
    rw [escape_string_body, List.append_assoc]
    exact parse_string_body_escape_char c _ cs r (ih r)

theorem parse_items_encode (ss : List (List Char)) :
    ∀ (s : List Char) (fuel : Nat), ss.length < fuel →
      parse_items fuel (encode_json_string s ++ encode_items_rest ss) = some (s :: ss, []) := by
  induction ss with
  | nil =>
    intro s fuel hfuel
    cases fuel with
    | zero => omega
    | succ fuel =>
      simp only [encode_json_string, encode_items_rest, List.cons_append, List.append_assoc,
        List.nil_append, parse_items]
      rw [parse_string_body_encode s [']']]
      simp
  | cons s2 ss2 ih =>
    intro s fuel hfuel
    cases fuel with
    | zero => omega
    | succ fuel =>
      simp only [encode_json_string, encode_items_rest, List.cons_append, List.append_assoc,
        List.nil_append, parse_items]
      rw [parse_string_body_encode s
        (',' :: ('"' :: (escape_string_body s2 ++ '"' :: encode_items_rest ss2)))]
      have hlen : ss2.length < fuel := by
        simp at hfuel
        omega
      have hx := ih s2 fuel hlen
      simp only [encode_json_string, List.cons_append, List.append_assoc,
        List.nil_append] at hx
      simp [hx]

theorem encode_items_rest_length (ss : List (List Char)) :
    ss.length + 1 ≤ (encode_items_rest ss).length := by
  induction ss with
  | nil => simp [encode_items_rest]
  | cons s t ih =>
    simp only [encode_items_rest, List.length_cons, List.length_append]
    have : 2 ≤ (encode_json_string s).length := by
      simp [encode_json_string]
    omega

/-- C3 at the character-list level: decoding the ArgumentChannel encoding of
any finite sequence of strings yields exactly the original sequence. -/
theorem serde_json_roundtrip (args_vec : List (List Char)) :
    serde_json_from_str (serde_json_to_string args_vec) = some args_vec := by
  cases args_vec with
  | nil => rfl
  | cons s rest =>
    rw [serde_json_to_string]
    unfold serde_json_from_str
    have hfuel : rest.length < (encode_json_string s ++ encode_items_rest rest).length := by
      have h1 := encode_items_rest_length rest
      simp only [List.length_append]
      omega
    have hx := parse_items_encode rest s
      (encode_json_string s ++ encode_items_rest rest).length hfuel
    simp only [encode_json_string, List.cons_append, List.append_assoc, List.nil_append,
      List.length_cons, List.length_append] at hx ⊢
    simp [hx]

/-- C3: for every finite sequence of strings (including the empty sequence
and strings containing control characters), decoding the ArgumentChannel
encoding of that sequence yields exactly the original sequence. -/
theorem c3_argument_channel_roundtrip (args_vec : List String) :
    deserialize_rudra_args (serialize_rudra_args args_vec) = some args_vec := by
  unfold serialize_rudra_args deserialize_rudra_args
  rw [show (⟨serde_json_to_string (args_vec.map String.data)⟩ : String).data =
      serde_json_to_string (args_vec.map String.data) from rfl]
  rw [serde_json_roundtrip]
  have hmk : (args_vec.map String.data).map (fun l => String.mk l) = args_vec := by
    rw [List.map_map]
    exact List.map_id'' (fun x => rfl) args_vec
  simp [hmk]

/-- C7: every planned delegated invocation forwards all caller-supplied
arguments before the first `--` verbatim (as one contiguous block after a
fixed target-selection block), carries the arguments after `--` only in the
encoded `RUDRA_ARGS` payload, and, when the caller supplied no `--target`
flag, ends with an explicit `--target <host>` selector. -/
theorem c7_planner_flag_forwarding (argv : Args) (debug_assertions use_xargo : Bool)
    (host package_name package_version : String) (target : CargoTarget)
    (base_report_path : Option String) (current_exe : String)
    (hkind : target_kind target ≠ TargetKind.Unknown) :
    ∃ cmd, plan_target argv debug_assertions use_xargo host package_name package_version
        target base_report_path current_exe = some cmd ∧
      cmd.args =
        ((if use_xargo then [] else
            ["check", "-p", package_name ++ "@" ++ package_version]) ++
          (match target_kind target with
            | TargetKind.Bin => ["--bin", target.name]
            | _ => ["--lib"]) ++
          (if !debug_assertions && !(has_arg_flag "-v" argv) then ["-q"] else [])) ++
        ((argv.drop 2).takeWhile (fun arg => arg != "--")) ++
        (if (get_arg_flag_value "--target" false argv).isNone
          then ["--target", host] else []) ∧
      cmd.env_rudra_args = serialize_rudra_args
        (((argv.drop 2).dropWhile (fun arg => arg != "--")).drop 1) ∧
      ((get_arg_flag_value "--target" false argv) = none →
        ∃ front, cmd.args = front ++ ["--target", host]) := by
  cases hk : target_kind target with
  | Unknown => exact absurd hk hkind
  | Library =>
    refine ⟨_, by unfold plan_target; rw [hk], ?_, rfl, ?_⟩
    · simp [hk, List.append_assoc]
    · intro hnone
      refine ⟨(if use_xargo then [] else
          ["check", "-p", package_name ++ "@" ++ package_version]) ++
          ["--lib"] ++
          (if !debug_assertions && !(has_arg_flag "-v" argv) then ["-q"] else []) ++
          ((argv.drop 2).takeWhile (fun arg => arg != "--")), ?_⟩
      simp [hk, hnone, List.append_assoc]
  | Bin =>
    refine ⟨_, by unfold plan_target; rw [hk], ?_, rfl, ?_⟩
    · simp [hk, List.append_assoc]
    · intro hnone
      refine ⟨(if use_xargo then [] else
          ["check", "-p", package_name ++ "@" ++ package_version]) ++
          ["--bin", target.name] ++
          (if !debug_assertions && !(has_arg_flag "-v" argv) then ["-q"] else []) ++
          ((argv.drop 2).takeWhile (fun arg => arg != "--")), ?_⟩
      simp [hk, hnone, List.append_assoc]

/-- Witness for C7 at a concrete invocation: user flags `-j2` before `--` are
forwarded, `-Zsensitivity high` after `--` goes only into `RUDRA_ARGS`, and
`--target <host>` is appended because the caller supplied none. -/
theorem c7_planner_flag_forwarding_witness :
    ∃ cmd, plan_target ["cargo-rudra", "rudra", "-j2", "--", "-Zsensitivity", "high"]
        true false "x86_64-unknown-linux-gnu" "foo" "1.0.0"
        { name := "foo", kind := ["lib"] } none "/usr/bin/cargo-rudra" = some cmd ∧
      cmd.args =
        ((if false then [] else ["check", "-p", "foo" ++ "@" ++ "1.0.0"]) ++
          (match target_kind { name := "foo", kind := ["lib"] } with
            | TargetKind.Bin => ["--bin", ({ name := "foo", kind := ["lib"] } : CargoTarget).name]
            | _ => ["--lib"]) ++
          (if !true && !(has_arg_flag "-v"
              ["cargo-rudra", "rudra", "-j2", "--", "-Zsensitivity", "high"]) then ["-q"]
            else [])) ++
        ((["cargo-rudra", "rudra", "-j2", "--", "-Zsensitivity", "high"].drop 2).takeWhile
          (fun arg => arg != "--")) ++
        (if (get_arg_flag_value "--target" false
            ["cargo-rudra", "rudra", "-j2", "--", "-Zsensitivity", "high"]).isNone
          then ["--target", "x86_64-unknown-linux-gnu"] else []) ∧
      cmd.env_rudra_args = serialize_rudra_args
        (((["cargo-rudra", "rudra", "-j2", "--", "-Zsensitivity", "high"].drop 2).dropWhile
          (fun arg => arg != "--")).drop 1) ∧
      ((get_arg_flag_value "--target" false
          ["cargo-rudra", "rudra", "-j2", "--", "-Zsensitivity", "high"]) = none →
        ∃ front, cmd.args = front ++ ["--target", "x86_64-unknown-linux-gnu"]) :=
  c7_planner_flag_forwarding _ _ _ _ _ _ _ _ _ (by decide)

theorem run_targets_loop_abort (bad : SpawnOutcome) (post : List SpawnOutcome)
    (hbad : bad ≠ SpawnOutcome.completed true) :
    ∀ (pre : List SpawnOutcome) (index : Nat),
      (∀ o ∈ pre, o = SpawnOutcome.completed true) →
      run_targets_loop index (pre ++ bad :: post) =
        ((List.range' index pre.length).map SupervisorEvent.spawn ++
          failure_events (index + pre.length) bad, some 1) := by
  intro pre
  induction pre with
  | nil =>
    intro index _
    cases bad with
    | completed success =>
      cases success with
      | true => exact absurd rfl hbad
      | false => simp [run_targets_loop, failure_events]
    | timed_out => simp [run_targets_loop, failure_events]
  | cons o pre ih =>
    intro index hpre
    have ho : o = SpawnOutcome.completed true := hpre o (List.mem_cons_self o pre)
    subst ho
    have hrest : ∀ o ∈ pre, o = SpawnOutcome.completed true :=
      fun o hm => hpre o (List.mem_cons_of_mem _ hm)
    have hih := ih (index + 1) hrest
    simp only [List.cons_append]
    unfold run_targets_loop
    simp only [hih]
    have harith : index + (pre.length + 1) = index + 1 + pre.length := by omega
    simp [List.range', harith]

/-- C8: in a supervised run where every invocation before position
`pre.length` succeeded, a non-zero completion at that position aborts the
whole run with exit status 1 after spawning only the targets up to and
including the failing one (no retry, no later target), and a timeout at that
position additionally kills and reaps the child before the same abort. -/
theorem c8_supervisor_abort (pre : List SpawnOutcome) (bad : SpawnOutcome)
    (post : List SpawnOutcome)
    (hpre : ∀ o ∈ pre, o = SpawnOutcome.completed true) :
    (bad = SpawnOutcome.completed false →
      run_targets (pre ++ bad :: post) =
        ((List.range pre.length).map SupervisorEvent.spawn ++
          [SupervisorEvent.spawn pre.length], some 1)) ∧
    (bad = SpawnOutcome.timed_out →
      run_targets (pre ++ bad :: post) =
        ((List.range pre.length).map SupervisorEvent.spawn ++
          [SupervisorEvent.spawn pre.length, SupervisorEvent.kill pre.length,
            SupervisorEvent.reap pre.length], some 1)) := by
  constructor <;> intro hb <;> subst hb <;>
    rw [run_targets, run_targets_loop_abort _ _ (by simp) pre 0 hpre] <;>
    simp [failure_events, List.range_eq_range']

/-- Witness for C8: with a successful first target, the second target failing
non-zero aborts the run (third target never spawned), and in a second run a
timeout at position 1 kills and reaps before aborting. -/
theorem c8_supervisor_abort_witness :
    (run_targets [SpawnOutcome.completed true, SpawnOutcome.completed false,
        SpawnOutcome.completed true] =
      ([SupervisorEvent.spawn 0, SupervisorEvent.spawn 1], some 1)) ∧
    (run_targets [SpawnOutcome.completed true, SpawnOutcome.timed_out,
        SpawnOutcome.completed true] =
      ([SupervisorEvent.spawn 0, SupervisorEvent.spawn 1, SupervisorEvent.kill 1,
        SupervisorEvent.reap 1], some 1)) :=
  ⟨(c8_supervisor_abort [SpawnOutcome.completed true] (SpawnOutcome.completed false)
      [SpawnOutcome.completed true] (by intro o ho; simpa using ho)).1 rfl,
    (c8_supervisor_abort [SpawnOutcome.completed true] SpawnOutcome.timed_out
      [SpawnOutcome.completed true] (by intro o ho; simpa using ho)).2 rfl⟩

/-- C10: flushing a file-backed report logger whose buffered report list is
empty performs no file write at all: the file system is unchanged, so the
report file is neither created nor truncated. -/
theorem c10_empty_flush_writes_nothing (logger : FileLogger) (fs : FileSystem)
    (hempty : logger.reports = []) :
    logger.flush fs = fs := by
  unfold FileLogger.flush
  rw [hempty]
  simp

/-- Witness for C10: an empty logger flushed over an empty file system leaves
it untouched. -/
theorem c10_empty_flush_writes_nothing_witness :
    FileLogger.flush { reports := [], file_path := "/tmp/rudra-report" }
      (fun _ => none) = (fun _ => none) :=
  c10_empty_flush_writes_nothing { reports := [], file_path := "/tmp/rudra-report" }
    (fun _ => none) rfl

theorem keys_build_dependencies (nodes : List ResolveNode) :
    graph_keys (build_dependencies nodes) = nodes.map ResolveNode.id := by
  simp [graph_keys, build_dependencies, List.map_map, Function.comp]

theorem keys_remove_package (package_id : PackageId) (g : DepGraph) :
    graph_keys (remove_package package_id g) =
      (g.filter (fun e => e.1 != package_id)).map Prod.fst := by
  simp [graph_keys, remove_package, List.map_map, Function.comp]

theorem mem_keys_remove_package {x package_id : PackageId} {g : DepGraph} :
    x ∈ graph_keys (remove_package package_id g) ↔
      x ∈ graph_keys g ∧ x ≠ package_id := by
  rw [keys_remove_package]
  simp only [graph_keys, List.mem_map, List.mem_filter]
  constructor
  · rintro ⟨e, ⟨he, hne⟩, rfl⟩
    exact ⟨⟨e, he, rfl⟩, by simpa using hne⟩
  · rintro ⟨⟨e, he, rfl⟩, hne⟩
    exact ⟨e, ⟨he, by simpa using hne⟩, rfl⟩

theorem nodup_keys_remove_package (package_id : PackageId) {g : DepGraph}
    (h : (graph_keys g).Nodup) :
    (graph_keys (remove_package package_id g)).Nodup := by
  rw [keys_remove_package]
  exact ((List.filter_sublist g).map Prod.fst).nodup h

theorem mem_remove_package {p package_id : PackageId} {ds : List PackageId} {g : DepGraph} :
    (p, ds) ∈ remove_package package_id g ↔
      ∃ ds0, (p, ds0) ∈ g ∧ p ≠ package_id ∧
        ds = ds0.filter (fun dep => dep != package_id) := by
  simp only [remove_package, List.mem_map, List.mem_filter]
  constructor
  · rintro ⟨e, ⟨he, hne⟩, heq⟩
    have h1 : e.1 = p := congrArg Prod.fst heq
    have h2 : e.2.filter (fun dep => dep != package_id) = ds := congrArg Prod.snd heq
    subst h1
    exact ⟨e.2, he, by simpa using hne, h2.symm⟩
  · rintro ⟨ds0, hds0, hne, rfl⟩
    exact ⟨(p, ds0), ⟨hds0, by simpa using hne⟩, rfl⟩

theorem length_remove_package {package_id : PackageId} {ds : List PackageId} {g : DepGraph}
    (hnodup : (graph_keys g).Nodup) (hmem : (package_id, ds) ∈ g) :
    (remove_package package_id g).length = g.length - 1 := by
  rw [remove_package, List.length_map]
  induction g with
  | nil => exact absurd hmem (List.not_mem_nil _)
  | cons e t ih =>
    rw [graph_keys, List.map_cons, List.nodup_cons] at hnodup
    rcases List.mem_cons.mp hmem with heq | htail
    · have hkey : e.1 = package_id := by rw [← heq]
      have hall : ∀ x ∈ t, x.1 != package_id := by
        intro x hx
        have : x.1 ∈ t.map Prod.fst := List.mem_map_of_mem Prod.fst hx
        have hne : x.1 ≠ e.1 := by
          intro hcontra
          exact hnodup.1 (hcontra ▸ this)
        simpa [hkey] using hkey ▸ hne
      rw [List.filter_cons_of_neg (by simp [hkey]),
        List.filter_eq_self.mpr hall]
      simp
    · have hne : (e.1 != package_id) = true := by
        have hmem2 : package_id ∈ t.map Prod.fst := by
          simpa using List.mem_map_of_mem Prod.fst htail
        have : e.1 ≠ package_id := by
          intro hcontra
          exact hnodup.1 (hcontra ▸ hmem2)
        simpa using this
      have hstep : List.filter (fun x => x.1 != package_id) (e :: t) =
          e :: List.filter (fun x => x.1 != package_id) t :=
        List.filter_cons_of_pos hne
      rw [hstep]
      have hlen : 1 ≤ t.length := List.length_pos.mpr (List.ne_nil_of_mem htail)
      simp only [List.length_cons]
      rw [ih (by exact hnodup.2) htail]
      omega

theorem nodup_keys_unique_deps {p : PackageId} {a b : List PackageId} {g : DepGraph}
    (hnodup : (graph_keys g).Nodup) (ha : (p, a) ∈ g) (hb : (p, b) ∈ g) : a = b := by
  induction g with
  | nil => exact absurd ha (List.not_mem_nil _)
  | cons e t ih =>
    rw [graph_keys, List.map_cons, List.nodup_cons] at hnodup
    rcases List.mem_cons.mp ha with haeq | hat <;>
      rcases List.mem_cons.mp hb with hbeq | hbt
    · rw [← haeq] at hbeq
      exact (Prod.mk.injEq _ _ _ _ ▸ hbeq.symm).2
    · exfalso
      apply hnodup.1
      have hp : p ∈ t.map Prod.fst := by
        simpa using List.mem_map_of_mem Prod.fst hbt
      have he1 : e.1 = p := by rw [← haeq]
      rw [he1]
      exact hp
    · exfalso
      apply hnodup.1
      have hp : p ∈ t.map Prod.fst := by
        simpa using List.mem_map_of_mem Prod.fst hat
      have he1 : e.1 = p := by rw [← hbeq]
      rw [he1]
      exact hp
    · exact ih hnodup.2 hat hbt

theorem topo_sort_loop_ok_spec :
    ∀ (fuel : Nat) (g : DepGraph) (out : List PackageId),
      fuel = g.length → (graph_keys g).Nodup →
      topo_sort_loop fuel g = Except.ok out →
      (∀ x, x ∈ out ↔ x ∈ graph_keys g) ∧ out.Nodup ∧
        (∀ p ds d, (p, ds) ∈ g → d ∈ ds → p ∈ out → d ∈ out → [d, p].Sublist out) := by
  intro fuel
  induction fuel with
  | zero =>
    intro g out hlen hnodup hrun
    have hg : g = [] := List.length_eq_zero.mp hlen.symm
    subst hg
    unfold topo_sort_loop at hrun
    cases hrun
    refine ⟨by simp [graph_keys], List.nodup_nil, ?_⟩
    intro p ds d hpds
    exact absurd hpds (List.not_mem_nil _)
  | succ n ih =>
    intro g out hlen hnodup hrun
    unfold topo_sort_loop at hrun
    cases hfind : g.find? (fun e => e.2.isEmpty) with
    | none =>
      rw [hfind] at hrun
      exact absurd hrun (by simp)
    | some e =>
      rw [hfind] at hrun
      have hrun2 : (match topo_sort_loop n (remove_package e.1 g) with
          | Except.error remaining => Except.error remaining
          | Except.ok res => Except.ok (e.1 :: res)) = Except.ok out := hrun
      cases hrec : topo_sort_loop n (remove_package e.1 g) with
      | error rem =>
        rw [hrec] at hrun2
        exact absurd hrun2 (by simp)
      | ok res =>
        rw [hrec] at hrun2
        have hout : out = e.1 :: res := by
          cases hrun2
          rfl
        subst hout
        have he_mem : e ∈ g := List.mem_of_find?_eq_some hfind
        have he_empty : e.2 = [] := by
          have := List.find?_some hfind
          simpa using this
        have hkey : e.1 ∈ graph_keys g := by
          simpa [graph_keys] using List.mem_map_of_mem Prod.fst he_mem
        have hglen : 1 ≤ g.length := List.length_pos.mpr (List.ne_nil_of_mem he_mem)
        have he_pair : (e.1, e.2) ∈ g := he_mem
        have hlen2 : n = (remove_package e.1 g).length := by
          rw [length_remove_package hnodup he_pair]
          omega
        have hnodup2 := nodup_keys_remove_package e.1 hnodup
        obtain ⟨hcov, hnd, htopo⟩ := ih (remove_package e.1 g) res hlen2 hnodup2 hrec
        have hcov2 : ∀ x, x ∈ res ↔ x ∈ graph_keys g ∧ x ≠ e.1 := by
          intro x
          rw [hcov x, mem_keys_remove_package]
        refine ⟨?_, ?_, ?_⟩
        · intro x
          rw [List.mem_cons, hcov2 x]
          constructor
          · rintro (rfl | ⟨hx, _⟩)
            · exact hkey
            · exact hx
          · intro hx
            by_cases hxe : x = e.1
            · exact Or.inl hxe
            · exact Or.inr ⟨hx, hxe⟩
        · refine List.nodup_cons.mpr ⟨?_, hnd⟩
          intro hmem
          exact ((hcov2 e.1).mp hmem).2 rfl
        · intro p ds d hpds hd hp hdmem
          by_cases hpe : p = e.1
          · subst hpe
            have hds : ds = e.2 := nodup_keys_unique_deps hnodup hpds he_pair
            rw [hds, he_empty] at hd
            exact absurd hd (List.not_mem_nil d)
          · have hpres : p ∈ res := by
              rcases List.mem_cons.mp hp with h | h
              · exact absurd h hpe
              · exact h
            by_cases hde : d = e.1
            · subst hde
              exact List.Sublist.cons₂ e.1 (List.singleton_sublist.mpr hpres)
            · have hdres : d ∈ res := by
                rcases List.mem_cons.mp hdmem with h | h
                · exact absurd h hde
                · exact h
              have hpds2 : (p, ds.filter (fun x => x != e.1)) ∈ remove_package e.1 g :=
                mem_remove_package.mpr ⟨ds, hpds, hpe, rfl⟩
              have hd2 : d ∈ ds.filter (fun x => x != e.1) := by
                rw [List.mem_filter]
                exact ⟨hd, by simpa using hde⟩
              exact (htopo p _ d hpds2 hd2 hpres hdres).cons e.1

theorem next_dep_spec {g : DepGraph} {p : PackageId}
    (hp : p ∈ graph_keys g) (hne : ∀ e ∈ g, e.2 ≠ []) :
    edge g p (next_dep g p) := by
  obtain ⟨e, he, hpe⟩ : ∃ e, e ∈ g ∧ e.1 = p := by
    rcases List.mem_map.mp hp with ⟨e, he, hpe⟩
    exact ⟨e, he, hpe⟩
  have hfind : (g.find? (fun e => e.1 == p)).isSome := by
    rw [List.find?_isSome]
    exact ⟨e, he, by simp [hpe]⟩
  obtain ⟨e2, hfind2⟩ := Option.isSome_iff_exists.mp hfind
  have he2 : e2 ∈ g := List.mem_of_find?_eq_some hfind2
  have he2p : e2.1 = p := by
    have := List.find?_some hfind2
    simpa using this
  have hne2 := hne e2 he2
  unfold next_dep
  rw [hfind2]
  show edge g p (e2.2.headD p)
  have hmem : (p, e2.2) ∈ g := by
    have hpair : (e2.1, e2.2) ∈ g := he2
    rw [he2p] at hpair
    exact hpair
  cases hd : e2.2 with
  | nil => exact absurd hd hne2
  | cons h t =>
    refine ⟨e2.2, hmem, ?_⟩
    rw [hd]
    simp

theorem next_dep_mem {g : DepGraph} {p : PackageId}
    (hclosed : ∀ a b, edge g a b → b ∈ graph_keys g)
    (hp : p ∈ graph_keys g) (hne : ∀ e ∈ g, e.2 ≠ []) :
    next_dep g p ∈ graph_keys g :=
  hclosed _ _ (next_dep_spec hp hne)

theorem iterate_next_dep_mem {g : DepGraph}
    (hclosed : ∀ a b, edge g a b → b ∈ graph_keys g)
    (hne : ∀ e ∈ g, e.2 ≠ []) {x : PackageId} (hx : x ∈ graph_keys g) :
    ∀ k, (next_dep g)^[k] x ∈ graph_keys g := by
  intro k
  induction k with
  | zero => simpa using hx
  | succ k ih =>
    rw [Function.iterate_succ_apply']
    exact next_dep_mem hclosed ih hne

theorem chain_iterate_next_dep {g : DepGraph}
    (hclosed : ∀ a b, edge g a b → b ∈ graph_keys g)
    (hne : ∀ e ∈ g, e.2 ≠ []) :
    ∀ (m : Nat) (x : PackageId), x ∈ graph_keys g →
      List.Chain (edge g) x
        ((List.range m).map (fun k => (next_dep g)^[k] (next_dep g x))) := by
  intro m
  induction m with
  | zero =>
    intro x _
    simp only [List.range_zero, List.map_nil]
    exact List.Chain.nil
  | succ m ih =>
    intro x hx
    rw [List.range_succ_eq_map]
    simp only [List.map_cons, Function.iterate_zero_apply, List.map_map]
    refine List.Chain.cons (next_dep_spec hx hne) ?_
    have hfx : next_dep g x ∈ graph_keys g := next_dep_mem hclosed hx hne
    have hih := ih (next_dep g x) hfx
    have hmapeq : (List.range m).map
          ((fun k => (next_dep g)^[k] (next_dep g x)) ∘ Nat.succ) =
        (List.range m).map
          (fun k => (next_dep g)^[k] (next_dep g (next_dep g x))) := by
      apply List.map_congr_left
      intro k _
      simp [Function.comp, Function.iterate_succ_apply]
    rw [hmapeq]
    exact hih

theorem has_cycle_of_stuck {g : DepGraph}
    (hclosed : ∀ a b, edge g a b → b ∈ graph_keys g)
    (hne : ∀ e ∈ g, e.2 ≠ []) (hnonempty : g ≠ []) : has_cycle g := by
  obtain ⟨e0, he0⟩ : ∃ e, e ∈ g := List.exists_mem_of_ne_nil g hnonempty
  have hx0 : e0.1 ∈ graph_keys g := by
    simpa [graph_keys] using List.mem_map_of_mem Prod.fst he0
  have hPsub : ((List.range (g.length + 1)).map
      (fun k => (next_dep g)^[k] e0.1)) ⊆ graph_keys g := by
    intro y hy
    rcases List.mem_map.mp hy with ⟨k, _, rfl⟩
    exact iterate_next_dep_mem hclosed hne hx0 k
  have hkeyslen : (graph_keys g).length = g.length := by simp [graph_keys]
  have hnotnodup : ¬ ((List.range (g.length + 1)).map
      (fun k => (next_dep g)^[k] e0.1)).Nodup := by
    intro hnd
    have hle := (List.subperm_of_subset hnd hPsub).length_le
    simp only [List.length_map, List.length_range] at hle
    omega
  obtain ⟨a, haa⟩ : ∃ a, ([a, a]).Sublist ((List.range (g.length + 1)).map
      (fun k => (next_dep g)^[k] e0.1)) := by
    by_contra hc
    push_neg at hc
    exact hnotnodup (List.nodup_iff_sublist.mpr hc)
  obtain ⟨l3, hl3, hl3map⟩ := List.sublist_map_iff.mp haa
  have hl3len : l3.length = 2 := by
    have := congrArg List.length hl3map
    simpa using this.symm
  obtain ⟨i, j, rfl⟩ : ∃ i j, l3 = [i, j] := by
    match l3, hl3len with
    | [i, j], _ => exact ⟨i, j, rfl⟩
  have hij : i < j := by
    have hp := (List.pairwise_lt_range (g.length + 1)).sublist hl3
    simpa using hp
  have hijeq : (next_dep g)^[i] e0.1 = (next_dep g)^[j] e0.1 := by
    have h1 : ([a, a] : List PackageId) =
        [(next_dep g)^[i] e0.1, (next_dep g)^[j] e0.1] := by
      simpa using hl3map
    have h2 := (List.cons.injEq _ _ _ _).mp h1
    have h3 := (List.cons.injEq _ _ _ _).mp h2.2
    rw [← h2.1, ← h3.1]
  have hym : (next_dep g)^[j - i] ((next_dep g)^[i] e0.1) = (next_dep g)^[i] e0.1 := by
    have hadd : (next_dep g)^[(j - i) + i] e0.1 =
        (next_dep g)^[j - i] ((next_dep g)^[i] e0.1) :=
      Function.iterate_add_apply (next_dep g) (j - i) i e0.1
    rw [show (j - i) + i = j from by omega] at hadd
    rw [← hadd, ← hijeq]
  have hymem : (next_dep g)^[i] e0.1 ∈ graph_keys g :=
    iterate_next_dep_mem hclosed hne hx0 i
  refine ⟨(next_dep g)^[i] e0.1,
    (List.range (j - i - 1)).map (fun k => (next_dep g)^[k]
      (next_dep g ((next_dep g)^[i] e0.1))), ?_⟩
  have hchain := chain_iterate_next_dep hclosed hne (j - i) ((next_dep g)^[i] e0.1) hymem
  have hsplit : (List.range (j - i)).map
        (fun k => (next_dep g)^[k] (next_dep g ((next_dep g)^[i] e0.1))) =
      (List.range (j - i - 1)).map
        (fun k => (next_dep g)^[k] (next_dep g ((next_dep g)^[i] e0.1))) ++
        [(next_dep g)^[i] e0.1] := by
    rw [show j - i = (j - i - 1) + 1 from by omega, List.range_succ, List.map_append]
    simp only [List.map_cons, List.map_nil]
    congr 1
    rw [← Function.iterate_succ_apply]
    rw [show (j - i - 1).succ = j - i from by omega, hym]
  rw [hsplit] at hchain
  exact hchain

theorem edge_remove_package {g : DepGraph} {package_id p d : PackageId}
    (h : edge (remove_package package_id g) p d) :
    edge g p d ∧ p ≠ package_id ∧ d ≠ package_id := by
  obtain ⟨ds, hds, hd⟩ := h
  rcases mem_remove_package.mp hds with ⟨ds0, hds0, hne, rfl⟩
  rw [List.mem_filter] at hd
  exact ⟨⟨ds0, hds0, hd.1⟩, hne, by simpa using hd.2⟩

theorem edge_remove_package_of_edge {g : DepGraph} {package_id p d : PackageId}
    (h : edge g p d) (hp : p ≠ package_id) (hd : d ≠ package_id) :
    edge (remove_package package_id g) p d := by
  obtain ⟨ds, hds, hdm⟩ := h
  refine ⟨ds.filter (fun x => x != package_id),
    mem_remove_package.mpr ⟨ds, hds, hp, rfl⟩, ?_⟩
  rw [List.mem_filter]
  exact ⟨hdm, by simpa using hd⟩

theorem closed_remove_package {g : DepGraph} (package_id : PackageId)
    (hclosed : ∀ a b, edge g a b → b ∈ graph_keys g) :
    ∀ a b, edge (remove_package package_id g) a b →
      b ∈ graph_keys (remove_package package_id g) := by
  intro a b h
  obtain ⟨hedge, _, hdb⟩ := edge_remove_package h
  rw [mem_keys_remove_package]
  exact ⟨hclosed a b hedge, hdb⟩

theorem has_cycle_mono {g1 g2 : DepGraph} (hsub : ∀ a b, edge g1 a b → edge g2 a b)
    (h : has_cycle g1) : has_cycle g2 := by
  obtain ⟨x, l, hchain⟩ := h
  exact ⟨x, l, List.Chain.imp hsub hchain⟩

theorem topo_sort_loop_error_cycle :
    ∀ (fuel : Nat) (g rem : DepGraph),
      fuel = g.length → (graph_keys g).Nodup →
      (∀ a b, edge g a b → b ∈ graph_keys g) →
      topo_sort_loop fuel g = Except.error rem → has_cycle g := by
  intro fuel
  induction fuel with
  | zero =>
    intro g rem hlen hnodup hclosed hrun
    unfold topo_sort_loop at hrun
    exact absurd hrun (by simp)
  | succ n ih =>
    intro g rem hlen hnodup hclosed hrun
    unfold topo_sort_loop at hrun
    cases hfind : g.find? (fun e => e.2.isEmpty) with
    | none =>
      have hne : ∀ e ∈ g, e.2 ≠ [] := by
        intro e he hcon
        have := List.find?_eq_none.mp hfind e he
        simp [hcon] at this
      have hnonempty : g ≠ [] := by
        intro hg
        rw [hg] at hlen
        simp at hlen
      exact has_cycle_of_stuck hclosed hne hnonempty
    | some e =>
      rw [hfind] at hrun
      have hrun2 : (match topo_sort_loop n (remove_package e.1 g) with
          | Except.error remaining => Except.error remaining
          | Except.ok res => Except.ok (e.1 :: res)) = Except.error rem := hrun
      cases hrec : topo_sort_loop n (remove_package e.1 g) with
      | ok res =>
        rw [hrec] at hrun2
        exact absurd hrun2 (by simp)
      | error rem2 =>
        have he_mem : e ∈ g := List.mem_of_find?_eq_some hfind
        have he_pair : (e.1, e.2) ∈ g := he_mem
        have hglen : 1 ≤ g.length := List.length_pos.mpr (List.ne_nil_of_mem he_mem)
        have hlen2 : n = (remove_package e.1 g).length := by
          rw [length_remove_package hnodup he_pair]
          omega
        have hnodup2 := nodup_keys_remove_package e.1 hnodup
        have hclosed2 := closed_remove_package e.1 hclosed
        have hcyc2 := ih (remove_package e.1 g) rem2 hlen2 hnodup2 hclosed2 hrec
        exact has_cycle_mono (fun a b h => (edge_remove_package h).1) hcyc2

theorem chain_targets :
    ∀ (l : List PackageId) (a b : PackageId) (R : PackageId → PackageId → Prop),
      List.Chain R a (l ++ [b]) → ∀ p ∈ a :: l, ∃ d ∈ l ++ [b], R p d := by
  intro l
  induction l with
  | nil =>
    intro a b R hchain p hp
    rw [List.mem_singleton] at hp
    subst hp
    cases hchain with
    | cons hR _ => exact ⟨b, by simp, hR⟩
  | cons y t ih =>
    intro a b R hchain p hp
    cases hchain with
    | cons hR htail =>
      rcases List.mem_cons.mp hp with rfl | hp2
      · exact ⟨y, by simp, hR⟩
      · obtain ⟨d, hd, hRd⟩ := ih y b R htail p hp2
        refine ⟨d, ?_, hRd⟩
        rcases List.mem_append.mp hd with h | h
        · exact List.mem_append.mpr (Or.inl (List.mem_cons_of_mem y h))
        · exact List.mem_append.mpr (Or.inr h)

theorem topo_sort_loop_cycle_stuck (S : List PackageId) (hSne : S ≠ []) :
    ∀ (fuel : Nat) (g : DepGraph), fuel = g.length → (graph_keys g).Nodup →
      (∀ p ∈ S, ∃ d ∈ S, edge g p d) →
      ∃ rem, topo_sort_loop fuel g = Except.error rem ∧
        ∀ p ∈ S, p ∈ graph_keys rem := by
  intro fuel
  induction fuel with
  | zero =>
    intro g hlen hnodup hS
    exfalso
    obtain ⟨p, hp⟩ := List.exists_mem_of_ne_nil S hSne
    obtain ⟨d, _, ds, hds, _⟩ := hS p hp
    have hg : g = [] := List.length_eq_zero.mp hlen.symm
    rw [hg] at hds
    exact absurd hds (List.not_mem_nil _)
  | succ n ih =>
    intro g hlen hnodup hS
    cases hfind : g.find? (fun e => e.2.isEmpty) with
    | none =>
      refine ⟨g, ?_, ?_⟩
      · unfold topo_sort_loop
        rw [hfind]
      · intro p hp
        obtain ⟨d, _, ds, hds, _⟩ := hS p hp
        simpa [graph_keys] using List.mem_map_of_mem Prod.fst hds
    | some e =>
      have he_mem : e ∈ g := List.mem_of_find?_eq_some hfind
      have he_pair : (e.1, e.2) ∈ g := he_mem
      have he_empty : e.2 = [] := by simpa using List.find?_some hfind
      have hid_not : e.1 ∉ S := by
        intro hid
        obtain ⟨d, hdS, ds, hds, hdm⟩ := hS e.1 hid
        have hds_eq : ds = e.2 := nodup_keys_unique_deps hnodup hds he_pair
        rw [hds_eq, he_empty] at hdm
        exact absurd hdm (List.not_mem_nil _)
      have hglen : 1 ≤ g.length := List.length_pos.mpr (List.ne_nil_of_mem he_mem)
      have hlen2 : n = (remove_package e.1 g).length := by
        rw [length_remove_package hnodup he_pair]
        omega
      have hnodup2 := nodup_keys_remove_package e.1 hnodup
      have hS2 : ∀ p ∈ S, ∃ d ∈ S, edge (remove_package e.1 g) p d := by
        intro p hp
        obtain ⟨d, hdS, hedge⟩ := hS p hp
        refine ⟨d, hdS, edge_remove_package_of_edge hedge ?_ ?_⟩
        · intro hcon
          rw [hcon] at hp
          exact hid_not hp
        · intro hcon
          rw [hcon] at hdS
          exact hid_not hdS
      obtain ⟨rem, hrem, hmem⟩ := ih (remove_package e.1 g) hlen2 hnodup2 hS2
      refine ⟨rem, ?_, hmem⟩
      unfold topo_sort_loop
      rw [hfind]
      show (match topo_sort_loop n (remove_package e.1 g) with
        | Except.error remaining => Except.error remaining
        | Except.ok res => Except.ok (e.1 :: res)) = Except.error rem
      rw [hrem]

/-- A rank function that strictly decreases along every edge rules out any
cycle (used to discharge acyclicity at concrete inputs). -/
theorem no_cycle_of_rank {g : DepGraph} (rank : PackageId → Nat)
    (hrank : ∀ a b, edge g a b → rank b < rank a) : ¬ has_cycle g := by
  rintro ⟨x, l, hchain⟩
  have hdec : ∀ (t : List PackageId) (a b : PackageId),
      List.Chain (edge g) a (t ++ [b]) → rank b < rank a := by
    intro t
    induction t with
    | nil =>
      intro a b h
      cases h with
      | cons hR _ => exact hrank _ _ hR
    | cons y t2 ih =>
      intro a b h
      cases h with
      | cons hR ht => exact Nat.lt_trans (ih y b ht) (hrank _ _ hR)
  exact absurd (hdec l x x hchain) (Nat.lt_irrefl _)

/-- C4: for every acyclic dependency graph (with cargo's guarantees: unique
node ids, dependency targets resolved to nodes, workspace members among the
nodes), the scheduler succeeds and returns a sequence that contains exactly
the workspace-member packages, without duplicates, in which every package
appears after all of its normal-kind dependencies that are in the sequence. -/
theorem c4_scheduler_topological_order (metadata : Metadata)
    (hnodup : (graph_keys (build_dependencies metadata.nodes)).Nodup)
    (hclosed : ∀ a b, edge (build_dependencies metadata.nodes) a b →
      b ∈ graph_keys (build_dependencies metadata.nodes))
    (hacyclic : ¬ has_cycle (build_dependencies metadata.nodes))
    (hmembers : ∀ w ∈ metadata.workspace_members,
      w ∈ graph_keys (build_dependencies metadata.nodes)) :
    ∃ schedule, cargo_workspace metadata = Except.ok schedule ∧
      schedule.Nodup ∧
      (∀ x, x ∈ schedule ↔ x ∈ metadata.workspace_members) ∧
      (∀ p ds d, (p, ds) ∈ build_dependencies metadata.nodes → d ∈ ds →
        p ∈ schedule → d ∈ schedule → ([d, p]).Sublist schedule) := by
  have hcw : cargo_workspace metadata =
      (match topo_sort_loop (build_dependencies metadata.nodes).length
          (build_dependencies metadata.nodes) with
        | Except.error remaining => Except.error remaining
        | Except.ok res =>
          Except.ok (res.filter (fun pkg => metadata.workspace_members.contains pkg))) := rfl
  cases hrun : topo_sort_loop (build_dependencies metadata.nodes).length
      (build_dependencies metadata.nodes) with
  | error rem =>
    exact absurd (topo_sort_loop_error_cycle _ _ rem rfl hnodup hclosed hrun) hacyclic
  | ok res =>
    obtain ⟨hcov, hnd, htopo⟩ := topo_sort_loop_ok_spec _ _ res rfl hnodup hrun
    refine ⟨res.filter (fun pkg => metadata.workspace_members.contains pkg), ?_, ?_, ?_, ?_⟩
    · rw [hcw, hrun]
    · exact hnd.filter _
    · intro x
      rw [List.mem_filter]
      constructor
      · rintro ⟨_, hc⟩
        simpa using hc
      · intro hx
        exact ⟨(hcov x).mpr (hmembers x hx), by simpa using hx⟩
    · intro p ds d hpds hd hp hdm
      have hp2 := List.mem_filter.mp hp
      have hd2 := List.mem_filter.mp hdm
      have hsub := (htopo p ds d hpds hd hp2.1 hd2.1).filter
        (fun pkg => metadata.workspace_members.contains pkg)
      rwa [show ([d, p]).filter (fun pkg => metadata.workspace_members.contains pkg) = [d, p]
        from by
          have hpm : p ∈ metadata.workspace_members := by simpa using hp2.2
          have hdm2 : d ∈ metadata.workspace_members := by simpa using hd2.2
          simp [hpm, hdm2]] at hsub

/-- C5: a dependency graph containing a cycle makes the scheduler fail
deterministically: it returns the `Cyclic dependencies` panic carrying the
remaining unresolved subgraph, which is nonempty and still contains every
package of the cycle. -/
theorem c5_cycle_detected (metadata : Metadata) (x : PackageId) (l : List PackageId)
    (hnodup : (graph_keys (build_dependencies metadata.nodes)).Nodup)
    (hchain : List.Chain (edge (build_dependencies metadata.nodes)) x (l ++ [x])) :
    ∃ rem, cargo_workspace metadata = Except.error rem ∧ rem ≠ [] ∧
      ∀ p ∈ x :: l, p ∈ graph_keys rem := by
  have hcw : cargo_workspace metadata =
      (match topo_sort_loop (build_dependencies metadata.nodes).length
          (build_dependencies metadata.nodes) with
        | Except.error remaining => Except.error remaining
        | Except.ok res =>
          Except.ok (res.filter (fun pkg => metadata.workspace_members.contains pkg))) := rfl
  have hSne : (x :: l) ≠ [] := by simp
  have hS : ∀ p ∈ x :: l, ∃ d ∈ x :: l, edge (build_dependencies metadata.nodes) p d := by
    intro p hp
    obtain ⟨d, hd, hR⟩ := chain_targets l x x _ hchain p hp
    refine ⟨d, ?_, hR⟩
    rcases List.mem_append.mp hd with h | h
    · exact List.mem_cons_of_mem x h
    · rw [List.mem_singleton] at h
      rw [h]
      exact List.mem_cons_self x l
  obtain ⟨rem, hrem, hmem⟩ := topo_sort_loop_cycle_stuck (x :: l) hSne _ _ rfl hnodup hS
  refine ⟨rem, ?_, ?_, hmem⟩
  · rw [hcw, hrem]
  · intro hcon
    have hx := hmem x (List.mem_cons_self x l)
    rw [hcon] at hx
    simp [graph_keys] at hx

/-- Witness for C4 at the workspace {A(lib), B depends on A, C depends on B}:
the scheduler succeeds with a duplicate-free sequence equal to the member set
in which dependencies precede dependents. -/
theorem c4_scheduler_topological_order_witness :
    ∃ schedule,
      cargo_workspace
          { nodes := [
              { id := "A", deps := [] },
              { id := "B", deps := [{ pkg := "A", dep_kinds := [DependencyKind.Normal] }] },
              { id := "C", deps := [{ pkg := "B", dep_kinds := [DependencyKind.Normal] }] }],
            workspace_members := ["A", "B", "C"] } = Except.ok schedule ∧
      schedule.Nodup ∧
      (∀ x, x ∈ schedule ↔ x ∈ ["A", "B", "C"]) ∧
      (∀ p ds d, (p, ds) ∈ build_dependencies [
              { id := "A", deps := [] },
              { id := "B", deps := [{ pkg := "A", dep_kinds := [DependencyKind.Normal] }] },
              { id := "C", deps := [{ pkg := "B", dep_kinds := [DependencyKind.Normal] }] }] →
        d ∈ ds → p ∈ schedule → d ∈ schedule → ([d, p]).Sublist schedule) :=
  c4_scheduler_topological_order _
    (by decide)
    (by
      intro a b hedge
      obtain ⟨ds, hds, hb⟩ := hedge
      have hds2 : (a = "A" ∧ ds = []) ∨ (a = "B" ∧ ds = ["A"]) ∨ (a = "C" ∧ ds = ["B"]) := by
        simpa [build_dependencies, Prod.ext_iff] using hds
      rcases hds2 with ⟨rfl, rfl⟩ | ⟨rfl, rfl⟩ | ⟨rfl, rfl⟩
      · exact absurd hb (List.not_mem_nil b)
      · rw [List.mem_singleton] at hb
        subst hb
        decide
      · rw [List.mem_singleton] at hb
        subst hb
        decide)
    (no_cycle_of_rank (fun p => if p = "B" then 1 else if p = "C" then 2 else 0)
      (by
        intro a b hedge
        obtain ⟨ds, hds, hb⟩ := hedge
        have hds2 : (a = "A" ∧ ds = []) ∨ (a = "B" ∧ ds = ["A"]) ∨ (a = "C" ∧ ds = ["B"]) := by
          simpa [build_dependencies, Prod.ext_iff] using hds
        rcases hds2 with ⟨rfl, rfl⟩ | ⟨rfl, rfl⟩ | ⟨rfl, rfl⟩
        · exact absurd hb (List.not_mem_nil b)
        · rw [List.mem_singleton] at hb
          subst hb
          decide
        · rw [List.mem_singleton] at hb
          subst hb
          decide))
    (by decide)

/-- Witness for C5 at the two-package cycle {A depends on B, B depends on A}:
the scheduler fails with a nonempty remaining subgraph containing both
packages. -/
theorem c5_cycle_detected_witness :
    ∃ rem,
      cargo_workspace
          { nodes := [
              { id := "A", deps := [{ pkg := "B", dep_kinds := [DependencyKind.Normal] }] },
              { id := "B", deps := [{ pkg := "A", dep_kinds := [DependencyKind.Normal] }] }],
            workspace_members := ["A", "B"] } = Except.error rem ∧ rem ≠ [] ∧
      ∀ p ∈ ("A" :: ["B"]), p ∈ graph_keys rem :=
  c5_cycle_detected _ "A" ["B"] (by decide)
    (List.Chain.cons ⟨["B"], by decide, by decide⟩
      (List.Chain.cons ⟨["A"], by decide, by decide⟩ List.Chain.nil))
